import Mathlib

/-!
# Shallow embedding of the signal-to-can firmware core

This file embeds, in Lean, the algorithmic core of the `signal-to-can`
repository and proves the testable properties of its specification against it:

* the round-robin ADC acquisition state machine of `adc_module.c`
  (`start_next_enabled_conversion`, `service_conversion_state`,
  `ADC_Module_Task`, `ADC_Module_Set_Sample_Rate`, `recompute_cycle_interval`);
* the CAN transport layer of `can_module.c` (filter-bank packing
  `reapply_id_list_filters`, `apply_accept_all_filter`,
  `encode_filter16_std_id`, `CAN_Module_Update_StdId_Filters`,
  `CAN_Module_Update_Baud`, the bounded waits of `CAN_Module_Send_Std` and
  `CAN_Module_Receive_Std`);
* the signal conditioning and telemetry publishing of `process_signals.c`
  (the out-of-range classification of `Process_Signals_Update`,
  `Process_Signals_Set_Divider`, `Process_Signals_Send_Can_If_Due`).

External HAL primitives (register programming, mailbox enqueue) are modelled
at their boundary: register writes are recorded in an explicit hardware state,
and fallible HAL calls whose outcome is environment-driven are parameters of
the embedding.  Machine integers are modelled as `Nat` with explicit
wrap-around arithmetic where the C code relies on it; C `float` values are
modelled as `ℚ`, which preserves the comparison and division structure the
claims are about.
-/

/-- Status type `HAL_StatusTypeDef` of the STM32 HAL: `HAL_OK`, `HAL_ERROR`, `HAL_BUSY`,
`HAL_TIMEOUT`. -/
inductive HALStatus where
  | ok
  | error
  | busy
  | timeout
deriving DecidableEq, Repr

/-- Unsigned 32-bit subtraction `a - b` as the C code computes it
(wrap-around modulo `2^32`); tick differences such as
`HAL_GetTick() - start` use this. -/
def u32_sub (a b : Nat) : Nat :=
  (2 ^ 32 + a % 2 ^ 32 - b % 2 ^ 32) % 2 ^ 32

/-! ## Acquisition engine (`adc_module.c`, round-robin draft)

`ADC_MODULE_CHANNEL_COUNT` is 8.  `s_active_channel = 0xFF` encodes "no
active channel".  The external ADC primitive (`HAL_ADC_ConfigChannel`,
`HAL_ADC_Start`) is modelled as fault-free, so `start_next_enabled_conversion`
is determined by the enable mask and the start index: it returns the channel
it starts a conversion on, or `none` when no channel is enabled (the C
function then returns `HAL_BUSY`). -/

def ADC_MODULE_CHANNEL_COUNT : Nat := 8

/-- Channel selection of `start_next_enabled_conversion`: begin the search at
`start_index + 1` (or at 0 when `start_index = 0xFF`) and scan all 8 indices
once, wrapping modulo 8; the first enabled channel found is started. -/
def start_next_enabled_conversion (mask : Nat) (start_index : Nat) : Option Nat :=
  let idx := if start_index = 0xFF then 0 else start_index + 1
  (List.range ADC_MODULE_CHANNEL_COUNT).findSome? fun n =>
    let ch := (idx + n) % ADC_MODULE_CHANNEL_COUNT
    if Nat.testBit mask ch then some ch else none

/-- The scan-relevant module state of `adc_module.c`:
`s_scan_active`, `s_conv_in_progress`, `s_active_channel`. -/
structure ScanState where
  scanActive : Bool
  convInProgress : Bool
  activeChannel : Nat
deriving DecidableEq, Repr

/-- What `service_conversion_state` does at the moment the in-flight
conversion completes: store the result (not modelled here), then call
`start_next_enabled_conversion` with the just-finished channel; if it starts
one, the scan stays active on that channel, otherwise `s_scan_active := 0`
and `s_active_channel := 0xFF`. -/
def service_completion (mask : Nat) (s : ScanState) : ScanState :=
  match start_next_enabled_conversion mask s.activeChannel with
  | some ch => { scanActive := s.scanActive, convInProgress := true, activeChannel := ch }
  | none => { scanActive := false, convInProgress := false, activeChannel := 0xFF }

/-- The cycle-start branch of `ADC_Module_Task`: when the interval has
elapsed and no scan is active, reset the cursor (`s_active_channel := 0xFF`)
and start the first enabled channel; if none is enabled the scan is not
activated. -/
def task_cycle_start (mask : Nat) : ScanState :=
  match start_next_enabled_conversion mask 0xFF with
  | some ch => { scanActive := true, convInProgress := true, activeChannel := ch }
  | none => { scanActive := false, convInProgress := false, activeChannel := 0xFF }

/-- The sequence of channels converted during a scan, starting from state
`s`, assuming every started conversion completes; `fuel` bounds the number of
completions observed. -/
def scanVisitsFrom (mask : Nat) : Nat → ScanState → List Nat
  | 0, _ => []
  | fuel + 1, s =>
    if s.convInProgress then
      s.activeChannel :: scanVisitsFrom mask fuel (service_completion mask s)
    else []

/-- Channels visited by a scan cycle begun by `ADC_Module_Task`, observing up
to `fuel` conversion completions. -/
def scanVisits (mask fuel : Nat) : List Nat :=
  scanVisitsFrom mask fuel (task_cycle_start mask)

/-- Iterated completion steps from the cycle start. -/
def scanStateAfter (mask : Nat) : Nat → ScanState
  | 0 => task_cycle_start mask
  | fuel + 1 => service_completion mask (scanStateAfter mask fuel)

/-! ## Sample-rate handling (`adc_module.c`) -/

/-- Helper `recompute_cycle_interval`: `s_cycle_interval_ms = (1000 + hz/2) / hz`
with `hz = 1` substituted for `0`. -/
def recompute_cycle_interval (sample_hz : Nat) : Nat :=
  let hz := if sample_hz = 0 then 1 else sample_hz
  (1000 + hz / 2) / hz

/-- Setter `ADC_Module_Set_Sample_Rate`: clamp the rate to `[1, 2000]`, store it,
recompute the cycle interval.  Returns `(s_sample_hz, s_cycle_interval_ms)`. -/
def ADC_Module_Set_Sample_Rate (sample_hz : Nat) : Nat × Nat :=
  let hz₁ := if sample_hz = 0 then 1 else sample_hz
  let hz₂ := if hz₁ > 2000 then 2000 else hz₁
  (hz₂, recompute_cycle_interval hz₂)

/-! ## CAN transport layer (`can_module.c`)

Hardware filter banks are modelled as a map `Nat → BankConfig` (banks 0..13
are the real ones); a `HAL_CAN_ConfigFilter` call is a `Function.update` on
that map together with a `cfgFilter` event recording program order.  The HAL
register-programming calls are modelled as fault-free (they only write
registers); environment-driven outcomes (`HAL_CAN_AddTxMessage`, the
received frame) are parameters. -/

def CAN_MODULE_MAX_FILTER_IDS : Nat := 32

def CAN_MODULE_FILTER_BANKS : Nat := 14

/-- Encoding `encode_filter16_std_id`: `(std_id & 0x7FF) << 5`. -/
def encode_filter16_std_id (std_id : Nat) : Nat :=
  (std_id &&& 0x7FF) <<< 5

/-- Configuration of one hardware filter bank. -/
inductive BankConfig where
  /-- 16-bit IDLIST mode, active, four identifier slots. -/
  | idList (e0 e1 e2 e3 : Nat)
  /-- 32-bit IDMASK mode with zero mask: accepts everything. -/
  | acceptAll
  /-- Bank explicitly deactivated. -/
  | deactivated
deriving DecidableEq, Repr

/-- Externally visible CAN operations, in program order. -/
inductive CanEv where
  | stop
  | setTiming (baud_enum : Nat)
  | initCtrl
  | cfgFilter (bank : Nat)
  | startCtrl
deriving DecidableEq, Repr

/-- Helper `apply_accept_all_filter`: program bank 0 as an accept-all mask filter;
other banks are left untouched. -/
def apply_accept_all_filter (banks : Nat → BankConfig) :
    (Nat → BankConfig) × List CanEv :=
  (Function.update banks 0 .acceptAll, [.cfgFilter 0])

/-- The programming loop of `reapply_id_list_filters`
(`while (remaining > 0 && bank < 14)`), one match arm per value of
`remaining` handled by a single iteration: pack up to four 16-bit-encoded
ids into the bank, filling the missing slots of a final partial bank with
`0`, then advance.  Returns the banks, the `cfgFilter` events in program
order, and the final value of the bank counter. -/
def reapply_fill : List Nat → Nat → (Nat → BankConfig) →
    (Nat → BankConfig) × List CanEv × Nat
  | [], bank, banks => (banks, [], bank)
  | [a], bank, banks =>
    if bank < CAN_MODULE_FILTER_BANKS then
      (Function.update banks bank (.idList (encode_filter16_std_id a) 0 0 0),
       [.cfgFilter bank], bank + 1)
    else (banks, [], bank)
  | [a, b], bank, banks =>
    if bank < CAN_MODULE_FILTER_BANKS then
      (Function.update banks bank
        (.idList (encode_filter16_std_id a) (encode_filter16_std_id b) 0 0),
       [.cfgFilter bank], bank + 1)
    else (banks, [], bank)
  | [a, b, c], bank, banks =>
    if bank < CAN_MODULE_FILTER_BANKS then
      (Function.update banks bank
        (.idList (encode_filter16_std_id a) (encode_filter16_std_id b)
          (encode_filter16_std_id c) 0),
       [.cfgFilter bank], bank + 1)
    else (banks, [], bank)
  | a :: b :: c :: d :: rest, bank, banks =>
    if bank < CAN_MODULE_FILTER_BANKS then
      let r := reapply_fill rest (bank + 1)
        (Function.update banks bank
          (.idList (encode_filter16_std_id a) (encode_filter16_std_id b)
            (encode_filter16_std_id c) (encode_filter16_std_id d)))
      (r.1, .cfgFilter bank :: r.2.1, r.2.2)
    else (banks, [], bank)

/-- The trailing loop of `reapply_id_list_filters`
(`for (; bank < 14; bank++)`), with its trip count `14 - bank` made an
explicit argument: deactivate every bank from the counter up to 13. -/
def deactivate_go : Nat → Nat → (Nat → BankConfig) →
    (Nat → BankConfig) × List CanEv
  | 0, _, banks => (banks, [])
  | n + 1, bank, banks =>
    let r := deactivate_go n (bank + 1) (Function.update banks bank .deactivated)
    (r.1, .cfgFilter bank :: r.2)

def deactivate_rest (bank : Nat) (banks : Nat → BankConfig) :
    (Nat → BankConfig) × List CanEv :=
  deactivate_go (CAN_MODULE_FILTER_BANKS - bank) bank banks

/-- Helper `reapply_id_list_filters`: an empty stored list installs the accept-all
bank; otherwise fill banks with the stored ids and deactivate the rest. -/
def reapply_id_list_filters (ids : List Nat) (banks : Nat → BankConfig) :
    (Nat → BankConfig) × List CanEv :=
  if ids.length = 0 then apply_accept_all_filter banks
  else
    let f := reapply_fill ids 0 banks
    let d := deactivate_rest f.2.2 f.1
    (d.1, f.2.1 ++ d.2)

/-- Filter-related module state: `s_filter_ids`/`s_filter_id_count` together
with the hardware bank registers. -/
structure CanFilterState where
  filterIds : List Nat
  banks : Nat → BankConfig

/-- Operation `CAN_Module_Update_StdId_Filters`: an empty list clears the stored set
and reapplies (accept-all); otherwise the list is truncated to
`CAN_MODULE_MAX_FILTER_IDS`, copied to module storage, and programmed. -/
def CAN_Module_Update_StdId_Filters (id_list : List Nat) (s : CanFilterState) :
    HALStatus × CanFilterState :=
  if id_list.length = 0 then
    let r := reapply_id_list_filters [] s.banks
    (.ok, { filterIds := [], banks := r.1 })
  else
    let stored := id_list.take CAN_MODULE_MAX_FILTER_IDS
    let r := reapply_id_list_filters stored s.banks
    (.ok, { filterIds := stored, banks := r.1 })

/-- Bit-timing selection of `set_bit_timing_for_baud`: 1+13+2 = 16 TQ,
SJW = 1 TQ, prescaler 24/12/6/3 for enum 0/1/2/3 (default: 24). -/
structure CanTiming where
  sjw : Nat
  bs1 : Nat
  bs2 : Nat
  prescaler : Nat
deriving DecidableEq, Repr

def set_bit_timing_for_baud (baud_enum : Nat) : CanTiming :=
  { sjw := 1, bs1 := 13, bs2 := 2,
    prescaler :=
      match baud_enum with
      | 1 => 12
      | 2 => 6
      | 3 => 3
      | _ => 24 }

/-- Full CAN module state for the baud hot-swap. -/
structure CanState where
  baudEnum : Nat
  timing : CanTiming
  started : Bool
  filterIds : List Nat
  banks : Nat → BankConfig

/-- Operation `CAN_Module_Update_Baud`: stop, store the baud enum, reprogram bit
timing, re-init, reapply the stored filters, restart.  Returns the status,
the new state, and the operations in program order. -/
def CAN_Module_Update_Baud (baud_enum : Nat) (s : CanState) :
    HALStatus × CanState × List CanEv :=
  let s₁ : CanState := { s with started := false }
  let s₂ : CanState :=
    { s₁ with baudEnum := baud_enum, timing := set_bit_timing_for_baud baud_enum }
  let r := reapply_id_list_filters s₂.filterIds s₂.banks
  let s₃ : CanState := { s₂ with banks := r.1, started := true }
  (.ok, s₃, .stop :: .setTiming baud_enum :: .initCtrl :: r.2 ++ [.startCtrl])

/-! ## Bounded waits (`wait_for_tx_mailbox`, `CAN_Module_Receive_Std`)

Each loop iteration observes the environment once: iteration `i` reads the
TX-mailbox free level (resp. the RX-FIFO fill level) and, if still waiting,
the millisecond tick.  The loops are embedded with an explicit iteration
budget `fuel`; `none` means the loop had not exited within `fuel`
iterations, so termination of the C loop is the statement that some finite
fuel always suffices. -/

/-- The busy-wait of `wait_for_tx_mailbox`: while no mailbox is free, return
`HAL_TIMEOUT` once `HAL_GetTick() - start >= timeout_ms`; exit with `HAL_OK`
as soon as a mailbox is free. -/
def wait_for_tx_mailbox_loop (freeLevel : Nat → Nat) (tick : Nat → Nat)
    (start timeout_ms : Nat) : Nat → Nat → Option HALStatus
  | 0, _ => none
  | fuel + 1, i =>
    if freeLevel i ≠ 0 then some .ok
    else if u32_sub (tick i) start ≥ timeout_ms then some .timeout
    else wait_for_tx_mailbox_loop freeLevel tick start timeout_ms fuel (i + 1)

/-- The RX-FIFO fill poll of `CAN_Module_Receive_Std`: same shape, on the
FIFO fill level. -/
def receive_fifo_wait_loop (fill : Nat → Nat) (tick : Nat → Nat)
    (start timeout_ms : Nat) : Nat → Nat → Option HALStatus
  | 0, _ => none
  | fuel + 1, i =>
    if fill i ≠ 0 then some .ok
    else if u32_sub (tick i) start ≥ timeout_ms then some .timeout
    else receive_fifo_wait_loop fill tick start timeout_ms fuel (i + 1)

/-- A received CAN frame as handed over by `HAL_CAN_GetRxMessage`. -/
structure RxFrame where
  ideStd : Bool
  stdId : Nat
  dlc : Nat
  data : List Nat
deriving DecidableEq, Repr

/-- Operation `CAN_Module_Send_Std` for a valid payload: wait for a mailbox (bounded),
then enqueue; `txResult` is the outcome of `HAL_CAN_AddTxMessage`. -/
def CAN_Module_Send_Std (freeLevel : Nat → Nat) (tick : Nat → Nat)
    (txResult : HALStatus) (dlc : Nat) (start timeout_ms fuel : Nat) :
    Option HALStatus :=
  if dlc > 8 then some .error
  else
    match wait_for_tx_mailbox_loop freeLevel tick start timeout_ms fuel 0 with
    | none => none
    | some .ok => some txResult
    | some st => some st

/-- Operation `CAN_Module_Receive_Std`: poll the FIFO fill level (bounded); on a frame,
reject non-standard frames as `HAL_ERROR`, otherwise return the masked id,
the DLC, and the first DLC payload bytes. -/
def CAN_Module_Receive_Std (fill : Nat → Nat) (tick : Nat → Nat)
    (frame : RxFrame) (start timeout_ms fuel : Nat) :
    Option (HALStatus × Option (Nat × Nat × List Nat)) :=
  match receive_fifo_wait_loop fill tick start timeout_ms fuel 0 with
  | none => none
  | some .timeout => some (.timeout, none)
  | some _ =>
    if frame.ideStd then
      some (.ok, some (frame.stdId &&& 0x7FF, frame.dlc, frame.data.take frame.dlc))
    else some (.error, none)

/-! ## Signal conditioning (`process_signals.c`)

C `float` quantities are modelled as `ℚ`.  `PS_ADC_VREF_V = 3.3`,
`PS_ADC_FULL_SCALE = 4095`. -/

def PS_NUM_CHANNELS : Nat := 8

def PS_ADC_VREF_V : ℚ := 33 / 10

def PS_ADC_FULL_SCALE : ℚ := 4095

/-- Per-channel calibration record `ps_cal_t`. -/
structure PsCal where
  gain : ℚ
  offset : ℚ
  vMin : ℚ
  vMax : ℚ
deriving DecidableEq, Repr

/-- Conversion `adc_raw_to_vpin`: `(PS_ADC_VREF_V * raw) / PS_ADC_FULL_SCALE`. -/
def adc_raw_to_vpin (raw : Nat) : ℚ :=
  PS_ADC_VREF_V * (raw : ℚ) / PS_ADC_FULL_SCALE

/-- Device-input voltage of a channel as `Process_Signals_Update` computes
it: `vin = gain * vpin + offset`. -/
def deviceInputV (cal : PsCal) (raw : Nat) : ℚ :=
  cal.gain * adc_raw_to_vpin raw + cal.offset

/-- The out-of-range test of `Process_Signals_Update` for one channel:
the channel bit is set in `s_oor_mask` iff `vin < v_min || vin > v_max`. -/
def channelOor (cal : PsCal) (raw : Nat) : Bool :=
  decide (deviceInputV cal raw < cal.vMin) || decide (deviceInputV cal raw > cal.vMax)

/-- The mask accumulation loop of `Process_Signals_Update`:
`mask |= 1u << i` for every out-of-range channel. -/
def Process_Signals_Update_oor_mask (cal : Nat → PsCal) (raw : Nat → Nat) : Nat :=
  (List.range PS_NUM_CHANNELS).foldl
    (fun m i => if channelOor (cal i) (raw i) then m ||| (1 <<< i) else m) 0

/-- Operation `Process_Signals_Set_Divider`: ignore out-of-range channels and
non-positive bottom resistors; otherwise set the channel gain to
`(r_top + r_bottom) / r_bottom` and its offset to `0`. -/
def Process_Signals_Set_Divider (ch : Nat) (r_top r_bottom : ℚ)
    (cal : Nat → PsCal) : Nat → PsCal :=
  if ch ≥ PS_NUM_CHANNELS then cal
  else if r_bottom ≤ 0 then cal
  else fun i =>
    if i = ch then
      { cal ch with gain := (r_top + r_bottom) / r_bottom, offset := 0 }
    else cal i

/-- Operation `Process_Signals_Send_Can`: send frame 1 then (only if it succeeded)
frame 2; return the first failure, else the second status.  `st1`, `st2` are
the outcomes of the two `CAN_Module_Send_Std` calls. -/
def Process_Signals_Send_Can (st1 st2 : HALStatus) : HALStatus :=
  if st1 ≠ .ok then st1 else st2

/-- Operation `Process_Signals_Send_Can_If_Due`: not due yet returns `HAL_BUSY` and
leaves `s_last_send_tick` alone; otherwise `s_last_send_tick := now` happens
before any send, and the send outcome is returned.  Result is
`(status, new s_last_send_tick)`. -/
def Process_Signals_Send_Can_If_Due (period_ms now last_send_tick : Nat)
    (st1 st2 : HALStatus) : HALStatus × Nat :=
  if u32_sub now last_send_tick < period_ms then (.busy, last_send_tick)
  else (Process_Signals_Send_Can st1 st2, now)

/-! ## bxCAN filter matching (hardware semantics)

Modelled from the spec: §glossary "IDLIST mode: filter mode matching a small
fixed set of exact identifiers", and the 16-bit element layout of
`encode_filter16_std_id` (STDID at bits 15:5, IDE = 0, RTR = 0).  A standard
data frame is accepted by an IDLIST bank iff its encoded id equals one of
the four elements; an accept-all mask bank accepts everything; a deactivated
bank accepts nothing. -/

def bankAccepts (b : BankConfig) (std_id : Nat) : Bool :=
  match b with
  | .idList e0 e1 e2 e3 =>
    let e := encode_filter16_std_id std_id
    e == e0 || e == e1 || e == e2 || e == e3
  | .acceptAll => true
  | .deactivated => false

/-- A frame reaches the FIFO iff one of the 14 hardware banks accepts it. -/
def filtersAccept (banks : Nat → BankConfig) (std_id : Nat) : Bool :=
  (List.range CAN_MODULE_FILTER_BANKS).any fun b => bankAccepts (banks b) std_id

/-! ## Properties -/

/-- Helper: the clamped sample rate stored by the setter. -/
theorem set_sample_rate_fst (hz : Nat) :
    (ADC_Module_Set_Sample_Rate hz).1 = min (max hz 1) 2000 := by
  simp only [ADC_Module_Set_Sample_Rate]
  split_ifs <;> omega

theorem recompute_cycle_interval_pos (s : Nat) (hs : s ≠ 0) :
    recompute_cycle_interval s = (1000 + s / 2) / s := by
  simp [recompute_cycle_interval, hs]

theorem set_sample_rate_snd (hz : Nat) :
    (ADC_Module_Set_Sample_Rate hz).2
      = (1000 + (ADC_Module_Set_Sample_Rate hz).1 / 2)
          / (ADC_Module_Set_Sample_Rate hz).1 := by
  have hrc : (ADC_Module_Set_Sample_Rate hz).2
      = recompute_cycle_interval (ADC_Module_Set_Sample_Rate hz).1 := rfl
  have hfst := set_sample_rate_fst hz
  rw [hrc, recompute_cycle_interval_pos _ (by omega)]

theorem cycle_interval_near (s : Nat) (hs : 0 < s) :
    2 * ((1000 + s / 2) / s) * s ≤ 2000 + s ∧
      2000 ≤ 2 * ((1000 + s / 2) / s) * s + s := by
  obtain ⟨q, hq⟩ : ∃ q, (1000 + s / 2) / s = q := ⟨_, rfl⟩
  have h1 := Nat.div_add_mod (1000 + s / 2) s
  have h2 := Nat.mod_lt (1000 + s / 2) hs
  rw [hq] at h1
  obtain ⟨m, hm⟩ : ∃ m, (1000 + s / 2) % s = m := ⟨_, rfl⟩
  rw [hm] at h1 h2
  obtain ⟨p, hp⟩ : ∃ p, s * q = p := ⟨_, rfl⟩
  rw [hp] at h1
  rw [hq]
  have hgoal : 2 * q * s = 2 * p := by rw [← hp]; ring
  rw [hgoal]
  omega

theorem interval_within_half (s iv : Nat) (hs : 0 < s)
    (h1 : 2 * iv * s ≤ 2000 + s) (h2 : 2000 ≤ 2 * iv * s + s) :
    |(iv : ℚ) - 1000 / (s : ℚ)| ≤ 1 / 2 := by
  have hsQ : (0 : ℚ) < (s : ℚ) := by exact_mod_cast hs
  have h1Q : 2 * (iv : ℚ) * s ≤ 2000 + s := by exact_mod_cast h1
  have h2Q : (2000 : ℚ) ≤ 2 * (iv : ℚ) * s + s := by exact_mod_cast h2
  have hcancel : (1000 / (s : ℚ)) * s = 1000 :=
    div_mul_cancel₀ _ (ne_of_gt hsQ)
  rw [abs_le]
  constructor
  · nlinarith [hcancel, hsQ, h2Q]
  · nlinarith [hcancel, hsQ, h1Q]

/-- C6: for every input `hz`, `ADC_Module_Set_Sample_Rate` clamps the stored
sample rate to `[1, 2000]` (5000 becomes 2000, 0 becomes 1) and recomputes
`cycle_interval_ms` as the nearest integer to `1000 / hz` (the stored value
differs from the exact quotient by at most one half). -/
theorem set_sample_rate_clamps_and_rounds (hz : Nat) :
    (ADC_Module_Set_Sample_Rate hz).1 = min (max hz 1) 2000 ∧
    |((ADC_Module_Set_Sample_Rate hz).2 : ℚ)
        - 1000 / ((ADC_Module_Set_Sample_Rate hz).1 : ℚ)| ≤ 1 / 2 ∧
    (ADC_Module_Set_Sample_Rate 5000).1 = 2000 ∧
    (ADC_Module_Set_Sample_Rate 0).1 = 1 := by
  have hfst := set_sample_rate_fst hz
  have hs : 0 < (ADC_Module_Set_Sample_Rate hz).1 := by rw [hfst]; omega
  have hnear := cycle_interval_near (ADC_Module_Set_Sample_Rate hz).1 hs
  rw [← set_sample_rate_snd hz] at hnear
  exact ⟨hfst, interval_within_half _ _ hs hnear.1 hnear.2, by decide, by decide⟩

/-- C1 (code bug, `adc_module.c` round-robin draft): with only channel 1
enabled, the cycle does start at the first enabled channel, but after the
conversion on channel 1 completes, `start_next_enabled_conversion(1)` wraps
around and selects channel 1 again; the scan therefore never returns to
idle, and a "cycle" converts the enabled channel over and over instead of
visiting it exactly once — contradicting the header comment of the module
("each enabled channel is sampled once per cycle"). -/
theorem scan_cycle_never_completes :
    start_next_enabled_conversion 2 0xFF = some 1 ∧
    start_next_enabled_conversion 2 1 = some 1 ∧
    scanVisits 2 4 = [1, 1, 1, 1] ∧
    (scanStateAfter 2 4).scanActive = true ∧
    (scanStateAfter 2 4).convInProgress = true := by
  refine ⟨?_, ?_, ?_, ?_, ?_⟩ <;> decide

theorem oor_fold_testBit (f : Nat → Bool) (l : List Nat) (m : Nat) (i : Nat) :
    (l.foldl (fun acc j => if f j then acc ||| (1 <<< j) else acc) m).testBit i
      = (m.testBit i || (l.contains i && f i)) := by
  induction l generalizing m with
  | nil => simp
  | cons j t ih =>
    simp only [List.foldl_cons, List.contains_cons]
    rw [ih]
    by_cases hji : j = i
    · subst hji
      by_cases hf : f j <;>
        simp [hf, Nat.testBit_or, Nat.testBit_shiftLeft, Bool.or_assoc]
    · have hbit : Nat.testBit (1 <<< j) i = false := by
        rw [Nat.shiftLeft_eq, one_mul]
        exact Nat.testBit_two_pow_of_ne hji
      have hij : (i == j) = false := by
        simp [Ne.symm hji]
      by_cases hf : f j <;>
        simp [hf, Nat.testBit_or, hbit, hij, hji, Bool.or_assoc]

theorem range_contains (i n : Nat) (h : i < n) :
    (List.range n).contains i = true := by
  simpa using h

/-- C7: out-of-range classification is inclusive at the bounds: the bit of
channel `i` in the out-of-range mask computed by `Process_Signals_Update` is clear
iff the device-input voltage lies in `[oor_min, oor_max]` (a voltage exactly
equal to either bound is in range), and set iff the voltage is strictly
below `oor_min` or strictly above `oor_max`. -/
theorem oor_classification_inclusive (cal : Nat → PsCal) (raw : Nat → Nat)
    (i : Nat) (hi : i < PS_NUM_CHANNELS) :
    ((Process_Signals_Update_oor_mask cal raw).testBit i
      = channelOor (cal i) (raw i)) ∧
    (channelOor (cal i) (raw i) = false ↔
      (cal i).vMin ≤ deviceInputV (cal i) (raw i)
        ∧ deviceInputV (cal i) (raw i) ≤ (cal i).vMax) ∧
    (channelOor (cal i) (raw i) = true ↔
      (deviceInputV (cal i) (raw i) < (cal i).vMin
        ∨ (cal i).vMax < deviceInputV (cal i) (raw i))) := by
  refine ⟨?_, ?_, ?_⟩
  · rw [Process_Signals_Update_oor_mask, oor_fold_testBit,
      range_contains i PS_NUM_CHANNELS hi]
    simp
  · simp [channelOor, not_lt, and_comm]
  · simp [channelOor]

theorem oor_classification_inclusive_witness :
    (0 < PS_NUM_CHANNELS ∧
      (Process_Signals_Update_oor_mask (fun _ => ⟨1, 0, 0, 5⟩)
        (fun _ => 0)).testBit 0 = channelOor ⟨1, 0, 0, 5⟩ 0) ∧
    channelOor ⟨1, 0, 0, 5⟩ 0 = false :=
  ⟨⟨by decide,
    (oor_classification_inclusive (fun _ => ⟨1, 0, 0, 5⟩) (fun _ => 0) 0
      (by decide)).1⟩,
   by norm_num [channelOor, deviceInputV, adc_raw_to_vpin,
     PS_ADC_VREF_V, PS_ADC_FULL_SCALE]⟩

/-- C8: for every channel index below 8, `Process_Signals_Set_Divider` with
`r_bottom > 0` sets the gain of the channel to `(r_top + r_bottom) / r_bottom`
and its offset to `0` (10 kΩ / 10 kΩ yields gain 2, offset 0) while leaving
other channels untouched; `r_bottom ≤ 0` is rejected and leaves all
calibration unchanged. -/
theorem set_divider_gain_offset (ch : Nat) (hch : ch < PS_NUM_CHANNELS)
    (r_top r_bottom : ℚ) (cal : Nat → PsCal) :
    (0 < r_bottom →
      (Process_Signals_Set_Divider ch r_top r_bottom cal ch).gain
          = (r_top + r_bottom) / r_bottom ∧
      (Process_Signals_Set_Divider ch r_top r_bottom cal ch).offset = 0 ∧
      ∀ i, i ≠ ch → Process_Signals_Set_Divider ch r_top r_bottom cal i = cal i) ∧
    (r_bottom ≤ 0 → Process_Signals_Set_Divider ch r_top r_bottom cal = cal) ∧
    (Process_Signals_Set_Divider 3 10000 10000 cal 3).gain = 2 ∧
    (Process_Signals_Set_Divider 3 10000 10000 cal 3).offset = 0 := by
  refine ⟨fun hrb => ?_, fun hrb => ?_, ?_, ?_⟩
  · rw [Process_Signals_Set_Divider, if_neg (by omega), if_neg (not_le.mpr hrb)]
    exact ⟨by simp, by simp, fun i hi => by simp [hi]⟩
  · rw [Process_Signals_Set_Divider]
    split_ifs <;> rfl
  · rw [Process_Signals_Set_Divider]
    norm_num [PS_NUM_CHANNELS]
  · rw [Process_Signals_Set_Divider]
    norm_num [PS_NUM_CHANNELS]

theorem set_divider_gain_offset_witness :
    (0 : ℚ) < 10000 ∧
    (Process_Signals_Set_Divider 3 10000 10000
        (fun _ => ⟨1, 0, 0, 5⟩) 3).gain = 2 :=
  ⟨by norm_num,
   (set_divider_gain_offset 3 (by decide) 10000 10000 (fun _ => ⟨1, 0, 0, 5⟩)).2.2.1⟩

/-- C9: when a telemetry publish is due (`now - last_send_tick ≥ period`),
`Process_Signals_Send_Can_If_Due` advances `s_last_send_tick` to `now`
before any sending happens, so the tick is advanced regardless of the send
outcome; the combined send status (the status of the first failing frame,
else of the second frame) is returned to the caller. -/
theorem publish_advances_tick (period_ms now last : Nat) (st1 st2 : HALStatus)
    (h : period_ms ≤ u32_sub now last) :
    (Process_Signals_Send_Can_If_Due period_ms now last st1 st2).2 = now ∧
    (Process_Signals_Send_Can_If_Due period_ms now last st1 st2).1
      = Process_Signals_Send_Can st1 st2 ∧
    (st1 ≠ .ok →
      (Process_Signals_Send_Can_If_Due period_ms now last st1 st2).1 = st1) ∧
    (st1 = .ok →
      (Process_Signals_Send_Can_If_Due period_ms now last st1 st2).1 = st2) := by
  rw [Process_Signals_Send_Can_If_Due, if_neg (not_lt.mpr h)]
  refine ⟨rfl, rfl, fun h1 => ?_, fun h1 => ?_⟩
  · simp [Process_Signals_Send_Can, h1]
  · simp [Process_Signals_Send_Can, h1]

theorem publish_advances_tick_witness :
    (Process_Signals_Send_Can_If_Due 5 100 0 .error .ok).2 = 100 ∧
    (Process_Signals_Send_Can_If_Due 5 100 0 .error .ok).1 = .error := by
  have h := publish_advances_tick 5 100 0 .error .ok (by norm_num [u32_sub])
  exact ⟨h.1, h.2.2.1 (by decide)⟩

theorem tx_wait_exits (freeLevel tick : Nat → Nat) (start timeout_ms N : Nat)
    (h : timeout_ms ≤ u32_sub (tick N) start) :
    ∀ fuel i, N < i + fuel → i ≤ N →
      ∃ s, wait_for_tx_mailbox_loop freeLevel tick start timeout_ms fuel i = some s
        ∧ (s = .ok ∨ s = .timeout) := by
  intro fuel
  induction fuel with
  | zero => intro i h1 h2; omega
  | succ n ih =>
    intro i h1 h2
    rw [wait_for_tx_mailbox_loop]
    split_ifs with hfree htime
    · exact ⟨.ok, rfl, Or.inl rfl⟩
    · exact ⟨.timeout, rfl, Or.inr rfl⟩
    · have hiN : i ≠ N := fun hEq => htime (hEq ▸ h)
      exact ih (i + 1) (by omega) (by omega)

theorem tx_wait_times_out (freeLevel tick : Nat → Nat) (start timeout_ms N : Nat)
    (h : timeout_ms ≤ u32_sub (tick N) start) (hfree : ∀ i, freeLevel i = 0) :
    ∀ fuel i, N < i + fuel → i ≤ N →
      wait_for_tx_mailbox_loop freeLevel tick start timeout_ms fuel i
        = some .timeout := by
  intro fuel
  induction fuel with
  | zero => intro i h1 h2; omega
  | succ n ih =>
    intro i h1 h2
    rw [wait_for_tx_mailbox_loop]
    split_ifs with hf htime
    · exact absurd (hfree i) hf
    · rfl
    · have hiN : i ≠ N := fun hEq => htime (hEq ▸ h)
      exact ih (i + 1) (by omega) (by omega)

theorem rx_wait_exits (fill tick : Nat → Nat) (start timeout_ms N : Nat)
    (h : timeout_ms ≤ u32_sub (tick N) start) :
    ∀ fuel i, N < i + fuel → i ≤ N →
      ∃ s, receive_fifo_wait_loop fill tick start timeout_ms fuel i = some s
        ∧ (s = .ok ∨ s = .timeout) := by
  intro fuel
  induction fuel with
  | zero => intro i h1 h2; omega
  | succ n ih =>
    intro i h1 h2
    rw [receive_fifo_wait_loop]
    split_ifs with hfill htime
    · exact ⟨.ok, rfl, Or.inl rfl⟩
    · exact ⟨.timeout, rfl, Or.inr rfl⟩
    · have hiN : i ≠ N := fun hEq => htime (hEq ▸ h)
      exact ih (i + 1) (by omega) (by omega)

theorem rx_wait_times_out (fill tick : Nat → Nat) (start timeout_ms N : Nat)
    (h : timeout_ms ≤ u32_sub (tick N) start) (hfill : ∀ i, fill i = 0) :
    ∀ fuel i, N < i + fuel → i ≤ N →
      receive_fifo_wait_loop fill tick start timeout_ms fuel i = some .timeout := by
  intro fuel
  induction fuel with
  | zero => intro i h1 h2; omega
  | succ n ih =>
    intro i h1 h2
    rw [receive_fifo_wait_loop]
    split_ifs with hf htime
    · exact absurd (hfill i) hf
    · rfl
    · have hiN : i ≠ N := fun hEq => htime (hEq ▸ h)
      exact ih (i + 1) (by omega) (by omega)

/-- C5: both bounded waits terminate.  If at some loop iteration `N` the
observed elapsed tick count reaches the timeout, then the mailbox wait of
`CAN_Module_Send_Std` and the FIFO poll of `CAN_Module_Receive_Std`, run
with iteration budget `N + 1`, return control to the caller with `HAL_OK`
or `HAL_TIMEOUT`; when the awaited resource never appears the result is
exactly `HAL_TIMEOUT` — at the wait-loop level and at the API level — and
`HAL_TIMEOUT` is distinct from both `HAL_OK` and `HAL_ERROR`. -/
theorem bounded_waits_terminate (freeLevel fill tick : Nat → Nat)
    (start timeout_ms N : Nat) (h : timeout_ms ≤ u32_sub (tick N) start) :
    (∃ s, wait_for_tx_mailbox_loop freeLevel tick start timeout_ms (N + 1) 0
        = some s ∧ (s = .ok ∨ s = .timeout)) ∧
    (∃ s, receive_fifo_wait_loop fill tick start timeout_ms (N + 1) 0
        = some s ∧ (s = .ok ∨ s = .timeout)) ∧
    ((∀ i, freeLevel i = 0) →
      wait_for_tx_mailbox_loop freeLevel tick start timeout_ms (N + 1) 0
        = some .timeout) ∧
    ((∀ i, fill i = 0) →
      receive_fifo_wait_loop fill tick start timeout_ms (N + 1) 0
        = some .timeout) ∧
    ((∀ i, freeLevel i = 0) → ∀ txResult dlc, dlc ≤ 8 →
      CAN_Module_Send_Std freeLevel tick txResult dlc start timeout_ms (N + 1)
        = some .timeout) ∧
    ((∀ i, fill i = 0) → ∀ frame,
      CAN_Module_Receive_Std fill tick frame start timeout_ms (N + 1)
        = some (.timeout, none)) ∧
    (HALStatus.timeout ≠ HALStatus.ok ∧ HALStatus.timeout ≠ HALStatus.error) := by
  refine ⟨tx_wait_exits freeLevel tick start timeout_ms N h (N + 1) 0 (by omega)
      (by omega),
    rx_wait_exits fill tick start timeout_ms N h (N + 1) 0 (by omega) (by omega),
    fun hf => tx_wait_times_out freeLevel tick start timeout_ms N h hf (N + 1) 0
      (by omega) (by omega),
    fun hf => rx_wait_times_out fill tick start timeout_ms N h hf (N + 1) 0
      (by omega) (by omega),
    fun hf txResult dlc hdlc => ?_, fun hf frame => ?_, by decide, by decide⟩
  · rw [CAN_Module_Send_Std, if_neg (by omega),
      tx_wait_times_out freeLevel tick start timeout_ms N h hf (N + 1) 0
        (by omega) (by omega)]
  · rw [CAN_Module_Receive_Std,
      rx_wait_times_out fill tick start timeout_ms N h hf (N + 1) 0
        (by omega) (by omega)]

theorem bounded_waits_terminate_witness :
    wait_for_tx_mailbox_loop (fun _ => 0) (fun i => i) 0 3 4 0 = some .timeout ∧
    receive_fifo_wait_loop (fun _ => 0) (fun i => i) 0 3 4 0 = some .timeout ∧
    CAN_Module_Send_Std (fun _ => 0) (fun i => i) .ok 8 0 3 4 = some .timeout := by
  have h := bounded_waits_terminate (fun _ => 0) (fun _ => 0) (fun i => i) 0 3 3
    (by norm_num [u32_sub])
  exact ⟨h.2.2.1 (fun _ => rfl), h.2.2.2.1 (fun _ => rfl),
    h.2.2.2.2.1 (fun _ => rfl) .ok 8 (by norm_num)⟩

theorem encode_zero : encode_filter16_std_id 0 = 0 := rfl

theorem getD_cons4 (a b c d : Nat) (rest : List Nat) (n : Nat) :
    (a :: b :: c :: d :: rest).getD (n + 4) 0 = rest.getD n 0 := by
  simp [List.getD_cons_succ]

theorem reapply_fill_banks_eq (ids : List Nat) (bank : Nat)
    (banks : Nat → BankConfig) (j : Nat) :
    (reapply_fill ids bank banks).1 j =
      if bank ≤ j ∧ j < CAN_MODULE_FILTER_BANKS ∧ 4 * (j - bank) < ids.length then
        .idList (encode_filter16_std_id (ids.getD (4 * (j - bank)) 0))
          (encode_filter16_std_id (ids.getD (4 * (j - bank) + 1) 0))
          (encode_filter16_std_id (ids.getD (4 * (j - bank) + 2) 0))
          (encode_filter16_std_id (ids.getD (4 * (j - bank) + 3) 0))
      else banks j := by
  induction ids, bank, banks using reapply_fill.induct generalizing j with
  | case1 bank banks =>
    rw [reapply_fill, if_neg (by simp)]
  | case2 a bank banks hb =>
    simp only [reapply_fill, if_pos hb]
    by_cases hj : j = bank
    · subst hj
      rw [Function.update_same, if_pos ⟨le_refl j, hb, by simp⟩]
      simp [encode_zero]
    · rw [Function.update_noteq hj, if_neg (by simp; omega)]
  | case3 a bank banks hb =>
    rw [reapply_fill, if_neg hb, if_neg (by omega)]
  | case4 a b bank banks hb =>
    simp only [reapply_fill, if_pos hb]
    by_cases hj : j = bank
    · subst hj
      rw [Function.update_same, if_pos ⟨le_refl j, hb, by simp⟩]
      simp [encode_zero]
    · rw [Function.update_noteq hj, if_neg (by simp; omega)]
  | case5 a b bank banks hb =>
    rw [reapply_fill, if_neg hb, if_neg (by omega)]
  | case6 a b c bank banks hb =>
    simp only [reapply_fill, if_pos hb]
    by_cases hj : j = bank
    · subst hj
      rw [Function.update_same, if_pos ⟨le_refl j, hb, by simp⟩]
      simp [encode_zero]
    · rw [Function.update_noteq hj, if_neg (by simp; omega)]
  | case7 a b c bank banks hb =>
    rw [reapply_fill, if_neg hb, if_neg (by omega)]
  | case8 a b c d rest bank banks hb ih =>
    simp only [reapply_fill, if_pos hb]
    rw [ih j]
    by_cases hj : j = bank
    · subst hj
      rw [if_neg (by omega), Function.update_same,
        if_pos ⟨le_refl j, hb, by simp⟩]
      simp
    · by_cases hjC : j < CAN_MODULE_FILTER_BANKS
      · by_cases hlt : j < bank
        · rw [if_neg (by omega), Function.update_noteq hj, if_neg (by omega)]
        · have hgt : bank < j := by omega
          by_cases hcond : 4 * (j - (bank + 1)) < rest.length
          · rw [if_pos ⟨by omega, hjC, hcond⟩,
              if_pos ⟨by omega, hjC, by simp; omega⟩]
            have h3 : 4 * (j - bank) + 3 = (4 * (j - (bank + 1)) + 3) + 4 := by
              omega
            have h2 : 4 * (j - bank) + 2 = (4 * (j - (bank + 1)) + 2) + 4 := by
              omega
            have h1 : 4 * (j - bank) + 1 = (4 * (j - (bank + 1)) + 1) + 4 := by
              omega
            have h0 : 4 * (j - bank) = 4 * (j - (bank + 1)) + 4 := by omega
            rw [h3, h2, h1, h0, getD_cons4, getD_cons4, getD_cons4, getD_cons4]
          · rw [if_neg (by omega), Function.update_noteq hj,
              if_neg (by simp; omega)]
      · rw [if_neg (by omega), Function.update_noteq hj, if_neg (by omega)]
  | case9 a b c d rest bank banks hb =>
    rw [reapply_fill, if_neg hb, if_neg (by omega)]

theorem reapply_fill_counter (ids : List Nat) (bank : Nat)
    (banks : Nat → BankConfig) (hb : bank ≤ CAN_MODULE_FILTER_BANKS) :
    (reapply_fill ids bank banks).2.2
      = min (bank + (ids.length + 3) / 4) CAN_MODULE_FILTER_BANKS := by
  induction ids, bank, banks using reapply_fill.induct with
  | case1 bank banks =>
    rw [reapply_fill]
    simp only [CAN_MODULE_FILTER_BANKS] at *
    simp
    omega
  | case2 a bank banks hbank =>
    rw [reapply_fill, if_pos hbank]
    simp only [CAN_MODULE_FILTER_BANKS] at *
    simp
    omega
  | case3 a bank banks hbank =>
    rw [reapply_fill, if_neg hbank]
    simp only [CAN_MODULE_FILTER_BANKS] at *
    simp
    omega
  | case4 a b bank banks hbank =>
    rw [reapply_fill, if_pos hbank]
    simp only [CAN_MODULE_FILTER_BANKS] at *
    simp
    omega
  | case5 a b bank banks hbank =>
    rw [reapply_fill, if_neg hbank]
    simp only [CAN_MODULE_FILTER_BANKS] at *
    simp
    omega
  | case6 a b c bank banks hbank =>
    rw [reapply_fill, if_pos hbank]
    simp only [CAN_MODULE_FILTER_BANKS] at *
    simp
    omega
  | case7 a b c bank banks hbank =>
    rw [reapply_fill, if_neg hbank]
    simp only [CAN_MODULE_FILTER_BANKS] at *
    simp
    omega
  | case8 a b c d rest bank banks hbank ih =>
    rw [reapply_fill, if_pos hbank]
    have := ih (by simp only [CAN_MODULE_FILTER_BANKS] at *; omega)
    simp only [CAN_MODULE_FILTER_BANKS] at *
    simp [this]
    omega
  | case9 a b c d rest bank banks hbank =>
    rw [reapply_fill, if_neg hbank]
    simp only [CAN_MODULE_FILTER_BANKS] at *
    simp
    omega

theorem deactivate_go_banks (n : Nat) :
    ∀ (bank : Nat) (banks : Nat → BankConfig) (j : Nat),
      (deactivate_go n bank banks).1 j
        = if bank ≤ j ∧ j < bank + n then .deactivated else banks j := by
  induction n with
  | zero =>
    intro bank banks j
    rw [deactivate_go, if_neg (by omega)]
  | succ m ih =>
    intro bank banks j
    rw [deactivate_go]
    show (deactivate_go m (bank + 1) (Function.update banks bank .deactivated)).1 j
      = _
    rw [ih, Function.update_apply]
    split_ifs <;> first
    | rfl
    | (exfalso; omega)

theorem reapply_nonempty_banks (ids : List Nat) (banks : Nat → BankConfig)
    (j : Nat) (hne : ids ≠ []) (hj : j < CAN_MODULE_FILTER_BANKS) :
    (reapply_id_list_filters ids banks).1 j
      = if 4 * j < ids.length then
          .idList (encode_filter16_std_id (ids.getD (4 * j) 0))
            (encode_filter16_std_id (ids.getD (4 * j + 1) 0))
            (encode_filter16_std_id (ids.getD (4 * j + 2) 0))
            (encode_filter16_std_id (ids.getD (4 * j + 3) 0))
      else .deactivated := by
  have hlen : ids.length ≠ 0 := by simpa using hne
  rw [reapply_id_list_filters, if_neg hlen]
  show (deactivate_rest (reapply_fill ids 0 banks).2.2
      (reapply_fill ids 0 banks).1).1 j = _
  rw [deactivate_rest, deactivate_go_banks, reapply_fill_banks_eq,
    reapply_fill_counter ids 0 banks (by omega)]
  simp only [Nat.sub_zero, Nat.zero_add, CAN_MODULE_FILTER_BANKS] at *
  by_cases hc : 4 * j < ids.length
  · rw [if_neg (by omega), if_pos ⟨by omega, by omega, hc⟩, if_pos hc]
  · rw [if_pos ⟨by omega, by omega⟩, if_neg hc]

/-- C3: filter packing.  An empty stored list installs exactly one
accept-all mask-mode bank (bank 0).  A nonempty stored list fills banks
sequentially, four 16-bit-encoded ids per bank, and every bank beyond those
needed is explicitly deactivated; in particular five stored ids put the
first four in bank 0, the fifth (with zero padding) in bank 1, and leave
banks 2..13 deactivated. -/
theorem filter_packing (ids : List Nat) (banks : Nat → BankConfig) (j : Nat)
    (hne : ids ≠ []) (hj : j < CAN_MODULE_FILTER_BANKS) :
    ((reapply_id_list_filters [] banks).1 0 = .acceptAll ∧
      (reapply_id_list_filters [] banks).2 = [.cfgFilter 0]) ∧
    ((reapply_id_list_filters ids banks).1 j
      = if 4 * j < ids.length then
          .idList (encode_filter16_std_id (ids.getD (4 * j) 0))
            (encode_filter16_std_id (ids.getD (4 * j + 1) 0))
            (encode_filter16_std_id (ids.getD (4 * j + 2) 0))
            (encode_filter16_std_id (ids.getD (4 * j + 3) 0))
        else .deactivated) ∧
    ((reapply_id_list_filters [10, 11, 12, 13, 14] banks).1 0
        = .idList (encode_filter16_std_id 10) (encode_filter16_std_id 11)
            (encode_filter16_std_id 12) (encode_filter16_std_id 13) ∧
      (reapply_id_list_filters [10, 11, 12, 13, 14] banks).1 1
        = .idList (encode_filter16_std_id 14) 0 0 0 ∧
      ∀ b, 2 ≤ b → b < CAN_MODULE_FILTER_BANKS →
        (reapply_id_list_filters [10, 11, 12, 13, 14] banks).1 b
          = .deactivated) := by
  refine ⟨⟨?_, ?_⟩, reapply_nonempty_banks ids banks j hne hj, ?_, ?_, ?_⟩
  · simp [reapply_id_list_filters, apply_accept_all_filter]
  · simp [reapply_id_list_filters, apply_accept_all_filter]
  · rw [reapply_nonempty_banks _ banks 0 (by simp)
      (by norm_num [CAN_MODULE_FILTER_BANKS])]
    norm_num
  · rw [reapply_nonempty_banks _ banks 1 (by simp)
      (by norm_num [CAN_MODULE_FILTER_BANKS])]
    norm_num [encode_zero]
  · intro b hb2 hb14
    rw [reapply_nonempty_banks _ banks b (by simp) hb14,
      if_neg (by simp; omega)]

theorem filter_packing_witness :
    (reapply_id_list_filters [10, 11, 12, 13, 14] (fun _ => .acceptAll)).1 1
      = .idList (encode_filter16_std_id 14) 0 0 0 :=
  (filter_packing [10, 11, 12, 13, 14] (fun _ => .acceptAll) 1 (by simp)
    (by norm_num [CAN_MODULE_FILTER_BANKS])).2.2.2.1

/-- C2 counterexample: the compiled capacity `CAN_MODULE_MAX_FILTER_IDS` is
32, not the 56-id hardware maximum.  Passing the 56 identifiers 0..55
stores only the first 32; id 40 is in the request but is neither stored nor
accepted by the programmed banks. -/
theorem filter_capacity_32_counterexample :
    ((CAN_Module_Update_StdId_Filters (List.range 56)
        { filterIds := [], banks := fun _ => .deactivated }).2.filterIds).length
      = 32 ∧
    (List.range 56).length = 56 ∧
    (40 : Nat) ∈ List.range 56 ∧
    (40 : Nat) ∉ (CAN_Module_Update_StdId_Filters (List.range 56)
        { filterIds := [], banks := fun _ => .deactivated }).2.filterIds ∧
    filtersAccept (CAN_Module_Update_StdId_Filters (List.range 56)
        { filterIds := [], banks := fun _ => .deactivated }).2.banks 40
      = false := by
  refine ⟨?_, ?_, ?_, ?_, ?_⟩ <;> decide

/-- C2 amended: for every identifier list, `CAN_Module_Update_StdId_Filters`
stores and programs at most `CAN_MODULE_MAX_FILTER_IDS = 32` identifiers —
the stored set is the first 32 entries of the request — and a longer list is
truncated silently: the call still returns `HAL_OK`. -/
theorem filters_truncate_silently (id_list : List Nat) (s : CanFilterState) :
    (CAN_Module_Update_StdId_Filters id_list s).1 = .ok ∧
    (CAN_Module_Update_StdId_Filters id_list s).2.filterIds
      = id_list.take CAN_MODULE_MAX_FILTER_IDS ∧
    ((CAN_Module_Update_StdId_Filters id_list s).2.filterIds).length
      ≤ CAN_MODULE_MAX_FILTER_IDS := by
  rw [CAN_Module_Update_StdId_Filters]
  by_cases h : id_list.length = 0
  · rw [if_pos h]
    have hnil : id_list = [] := List.length_eq_zero.mp h
    subst hnil
    exact ⟨rfl, rfl, by simp⟩
  · rw [if_neg h]
    refine ⟨rfl, rfl, ?_⟩
    simp [List.length_take]

/-- C4: `CAN_Module_Update_Baud` performs, in program order: stop the
controller, store the baud selector and reprogram the bit timing,
re-initialize, reapply the stored identifier filter set (which installs
accept-all when the stored list is empty), and restart; it succeeds and the
stored identifier list afterwards equals the one stored before the call. -/
theorem update_baud_sequence (baud_enum : Nat) (s : CanState) :
    (CAN_Module_Update_Baud baud_enum s).1 = .ok ∧
    (CAN_Module_Update_Baud baud_enum s).2.1.filterIds = s.filterIds ∧
    (CAN_Module_Update_Baud baud_enum s).2.1.baudEnum = baud_enum ∧
    (CAN_Module_Update_Baud baud_enum s).2.1.timing
      = set_bit_timing_for_baud baud_enum ∧
    (CAN_Module_Update_Baud baud_enum s).2.1.started = true ∧
    (CAN_Module_Update_Baud baud_enum s).2.1.banks
      = (reapply_id_list_filters s.filterIds s.banks).1 ∧
    (CAN_Module_Update_Baud baud_enum s).2.2
      = [CanEv.stop, CanEv.setTiming baud_enum, CanEv.initCtrl]
          ++ (reapply_id_list_filters s.filterIds s.banks).2
          ++ [CanEv.startCtrl] := by
  refine ⟨rfl, rfl, rfl, rfl, rfl, rfl, ?_⟩
  rw [CAN_Module_Update_Baud]
  simp

/-- C10: when the stored identifier count is not a multiple of 4, the last
unused slots of the last active bank are filled with `encode_filter16_std_id 0` (the
16-bit IDLIST encoding of standard id 0), so the programmed filters accept
a frame with standard id 0 — whether or not id 0 is in the stored list. -/
theorem padding_slots_accept_id_zero (ids : List Nat) (banks : Nat → BankConfig)
    (hne : ids ≠ []) (hmod : ids.length % 4 ≠ 0) (hlen : ids.length ≤ 56) :
    (∃ e0 e1 e2, (reapply_id_list_filters ids banks).1 ((ids.length - 1) / 4)
        = .idList e0 e1 e2 (encode_filter16_std_id 0)) ∧
    filtersAccept (reapply_id_list_filters ids banks).1 0 = true := by
  have hL : ids.length ≠ 0 := by simpa using hne
  have e1 := Nat.div_add_mod (ids.length - 1) 4
  have e2 := Nat.div_add_mod ids.length 4
  have h1 := Nat.mod_lt (ids.length - 1) (show 0 < 4 by norm_num)
  have h2 := Nat.mod_lt ids.length (show 0 < 4 by norm_num)
  have hjC : (ids.length - 1) / 4 < CAN_MODULE_FILTER_BANKS := by
    simp only [CAN_MODULE_FILTER_BANKS]
    omega
  have hbank := reapply_nonempty_banks ids banks ((ids.length - 1) / 4) hne hjC
  rw [if_pos (by omega)] at hbank
  have hgd : ids.getD (4 * ((ids.length - 1) / 4) + 3) 0 = 0 :=
    List.getD_eq_default _ _ (by omega)
  rw [hgd] at hbank
  refine ⟨⟨_, _, _, hbank⟩, ?_⟩
  rw [filtersAccept, List.any_eq_true]
  refine ⟨(ids.length - 1) / 4, List.mem_range.mpr hjC, ?_⟩
  rw [hbank]
  simp [bankAccepts]

theorem padding_slots_accept_id_zero_witness :
    filtersAccept (reapply_id_list_filters [5] (fun _ => .acceptAll)).1 0
      = true :=
  (padding_slots_accept_id_zero [5] (fun _ => .acceptAll) (by simp) (by simp)
    (by simp)).2
